import Mathlib

/-!
Shallow embedding of the token-search MCP server (`src/tokenList.ts`,
`src/server.ts`, and the minimal server variant).  The TypeScript module keeps
a module-level `mergedTokenList : Token[]`; here the catalog is passed
explicitly as a `List Token`.  JavaScript truthiness tests on strings, numbers
and optional values are modelled by explicit emptiness/zero tests.
-/

/-- Model of `String.prototype.toLowerCase` (ASCII range, which covers every
string the program compares): lower-case each character.  Defined by
structural recursion over the character list so that concrete instances
reduce inside the kernel. -/
def String.lowerAscii (s : String) : String :=
  String.mk (s.data.map Char.toLower)

/-- Model of `String.prototype.trim`: drop whitespace from both ends. -/
def String.trimWs (s : String) : String :=
  String.mk (((s.data.dropWhile Char.isWhitespace).reverse.dropWhile
    Char.isWhitespace).reverse)

/-- Split a character list at every occurrence of a separator character. -/
def List.splitAtChar (sep : Char) : List Char → List (List Char)
  | [] => [[]]
  | c :: cs =>
    let rest := List.splitAtChar sep cs
    if c == sep then [] :: rest
    else (c :: rest.headI) :: rest.tail

/-- JS `s.split(sep)` for a one-character separator: always returns at least
one (possibly empty) piece. -/
def String.splitChar (s : String) (sep : Char) : List String :=
  (List.splitAtChar sep s.data).map String.mk

namespace TokenSearch

/-- `ChainType` from tokenList.ts: `'bnb' | 'solana' | 'ton'`. -/
inductive ChainType
  | bnb
  | solana
  | ton
deriving DecidableEq, Repr

/-- The `Token` interface from tokenList.ts.  `decimals` is a JS number used
as an integer (it is produced by `parseInt`), so it is modelled as `Int`;
`logoURI?` and `tokenLists?` are optional fields. -/
structure Token where
  address : String
  chain : ChainType
  decimals : Int
  logoURI : Option String
  name : String
  symbol : String
  tokenLists : Option (List String)
deriving DecidableEq, Repr

/-- The `TokenList` interface.  The `timestamp` (wall clock) and constant
`version` fields are never read by merge or query code, so they are omitted
from the model. -/
structure TokenList where
  name : String
  tokens : List Token
deriving DecidableEq, Repr

/-- JS truthiness of a string: only the empty string is falsy. -/
def strTruthy (s : String) : Bool := !(s == "")

/-- JS truthiness of an optional string field (`undefined` and `""` are
falsy). -/
def optStrTruthy : Option String → Bool
  | none => false
  | some s => !(s == "")

/-- The identity predicate used by `find` / `findIndex` in tokenList.ts:
`t.address.toLowerCase() === a && t.chain === ch` where `a` is the already
lower-cased probe address. -/
def keyMatches (a : String) (ch : ChainType) (t : Token) : Bool :=
  t.address.lowerAscii == a && t.chain == ch

/-- `getTokenByAddress` from tokenList.ts: lower-case the input address, then
`find` the first token whose lower-cased address and chain match. -/
def getTokenByAddress (catalog : List Token) (address : String) (chain : ChainType) :
    Option Token :=
  catalog.find? (keyMatches address.lowerAscii chain)

/-- `getTokensByChain` from tokenList.ts. -/
def getTokensByChain (catalog : List Token) (chain : ChainType) : List Token :=
  catalog.filter (fun t => t.chain == chain)

/-- `pat` occurs at the start of `l` (character-wise model of a JS string
compare). -/
def charsStartWith : List Char → List Char → Bool
  | [], _ => true
  | _ :: _, [] => false
  | p :: ps, c :: cs => p == c && charsStartWith ps cs

/-- `pat` occurs somewhere inside `l`: model of `String.prototype.includes`. -/
def charsContain (pat : List Char) : List Char → Bool
  | [] => charsStartWith pat []
  | c :: cs => charsStartWith pat (c :: cs) || charsContain pat cs

/-- JS `hay.includes(pat)`. -/
def strIncludes (hay pat : String) : Bool := charsContain pat.toList hay.toList

/-- `searchTokens(query, chain?)` from tokenList.ts: optional chain filter,
then case-insensitive substring match of the query against symbol or name. -/
def searchTokens (catalog : List Token) (query : String) (chain : Option ChainType) :
    List Token :=
  let normalizedQuery := query.lowerAscii
  let filteredTokens : List Token :=
    match chain with
    | some c => catalog.filter (fun t => t.chain == c)
    | none => catalog
  filteredTokens.filter (fun t =>
    strIncludes t.symbol.lowerAscii normalizedQuery || strIncludes t.name.lowerAscii normalizedQuery)

/-- The update applied by `mergeTokenList` to an existing catalog entry with
the same identity as the incoming record: each of name/symbol/decimals/logoURI
is overwritten only when the existing value is falsy and the incoming one is
truthy, and the source list's name is appended to `tokenLists` when absent. -/
def updateExisting (e tok : Token) (listName : String) : Token :=
  { e with
    name := if !strTruthy e.name && strTruthy tok.name then tok.name else e.name
    symbol := if !strTruthy e.symbol && strTruthy tok.symbol then tok.symbol else e.symbol
    decimals := if e.decimals == 0 && !(tok.decimals == 0) then tok.decimals else e.decimals
    logoURI := if !optStrTruthy e.logoURI && optStrTruthy tok.logoURI then tok.logoURI
               else e.logoURI
    tokenLists := some (match e.tokenLists with
      | none => [listName]
      | some ns => if listName ∈ ns then ns else ns ++ [listName]) }

/-- One iteration of the `for (const token of newList.tokens)` loop in
`mergeTokenList`: replace the first entry with the same (lower-cased address,
chain) identity by its field-filled update, or append the record with
`tokenLists = [listName]` when no entry matches. -/
def mergeOne (listName : String) (tok : Token) : List Token → List Token
  | [] => [{ tok with tokenLists := some [listName] }]
  | t :: rest =>
    if keyMatches tok.address.lowerAscii tok.chain t then updateExisting t tok listName :: rest
    else t :: mergeOne listName tok rest

/-- `mergeTokenList(newList)` from tokenList.ts, with the mutable
`mergedTokenList` made explicit. -/
def mergeTokenList (catalog : List Token) (newList : TokenList) : List Token :=
  newList.tokens.foldl (fun c tok => mergeOne newList.name tok c) catalog

/-- The merge phase of `initializeTokenList`: start from the empty catalog and
fold every successfully loaded source list in declaration order. -/
def mergeAll (lists : List TokenList) : List Token :=
  lists.foldl mergeTokenList []

/-! ## Tool layer (server.ts and the minimal server variant) -/

/-- The `searchType` enum of the search tools. -/
inductive SearchType
  | fullMatch
  | partialMatch
deriving DecidableEq, Repr

/-- Number of source lists a token carries: `token.tokenLists?.length || 0`. -/
def provCount (t : Token) : Nat :=
  match t.tokenLists with
  | none => 0
  | some ns => ns.length

/-- Insert a token into a list sorted descending by `provCount`, before the
first entry whose count is not larger (so earlier tokens stay ahead of later
ones with an equal count). -/
def insertByProv (t : Token) : List Token → List Token
  | [] => [t]
  | h :: rest =>
    if provCount h ≤ provCount t then t :: h :: rest else h :: insertByProv t rest

/-- The stable descending sort `tokens.sort((a, b) => bCount - aCount)` used by
both search tools (JS `Array.prototype.sort` is stable, and the comparator
orders by `tokenLists?.length || 0` descending). -/
def sortByProvDesc : List Token → List Token
  | [] => []
  | h :: rest => insertByProv h (sortByProvDesc rest)

/-- JS `arr.slice(0, lim)`: a non-negative end index keeps the first `lim`
entries; a negative end index counts from the end of the array. -/
def jsSliceEnd (lim : Int) (l : List Token) : List Token :=
  if lim < 0 then l.take ((l.length : Int) + lim).toNat else l.take lim.toNat

/-- `args.limit || deflt`: an absent or zero limit falls back to the
default. -/
def effectiveLimit (deflt : Int) : Option Int → Int
  | none => deflt
  | some n => if n == 0 then deflt else n

/-- The candidate filter of the `search-tokens` tool: under `full-match`
(the default) keep only tokens whose symbol or name equals the query
case-insensitively; under `partial-match` pass the substring matches
through unchanged. -/
def searchMatchFilter (st : SearchType) (query : String) (l : List Token) : List Token :=
  match st with
  | .fullMatch =>
    let normalizedQuery := query.lowerAscii
    l.filter (fun t => t.symbol.lowerAscii == normalizedQuery || t.name.lowerAscii == normalizedQuery)
  | .partialMatch => l

/-- The matched-and-filtered set of the `search-tokens` tool, before ranking
and truncation. -/
def searchToolCandidates (catalog : List Token) (query : String) (chain : Option ChainType)
    (st : SearchType) : List Token :=
  searchMatchFilter st query (searchTokens catalog query chain)

/-- The token list produced by the `search-tokens` tool of server.ts
(default `searchType` full-match, default limit 1000). -/
def searchTokensToolTokens (catalog : List Token) (query : String) (chain : Option ChainType)
    (searchType : Option SearchType) (limit : Option Int) : List Token :=
  let st := searchType.getD SearchType.fullMatch
  let lim := effectiveLimit 1000 limit
  jsSliceEnd lim (sortByProvDesc (searchToolCandidates catalog query chain st))

/-- The token list produced by the `search-tokens` tool of the minimal server
variant (no chain parameter, default limit 100). -/
def searchTokensToolMinTokens (catalog : List Token) (query : String)
    (searchType : Option SearchType) (limit : Option Int) : List Token :=
  let st := searchType.getD SearchType.fullMatch
  let lim := effectiveLimit 100 limit
  jsSliceEnd lim (sortByProvDesc (searchToolCandidates catalog query none st))

/-- The token list produced by the `get-tokens-by-chain` tool (default limit
1000, no sorting). -/
def getTokensByChainToolTokens (catalog : List Token) (chain : ChainType)
    (limit : Option Int) : List Token :=
  let lim := effectiveLimit 1000 limit
  jsSliceEnd lim (getTokensByChain catalog chain)

/-- The candidate set of the `general-search` tool: address substring matches
first, then name/symbol substring matches not already present (deduplicated by
exact address and chain). -/
def generalCandidates (catalog : List Token) (query : String) (chain : Option ChainType) :
    List Token :=
  let allTokens : List Token :=
    match chain with
    | some c => getTokensByChain catalog c
    | none => catalog
  let addressTokens := allTokens.filter (fun t => strIncludes t.address.lowerAscii query.lowerAscii)
  let nameOrSymbolTokens := allTokens.filter (fun t =>
    strIncludes t.name.lowerAscii query.lowerAscii || strIncludes t.symbol.lowerAscii query.lowerAscii)
  nameOrSymbolTokens.foldl
    (fun combined t =>
      if combined.any (fun u => u.address == t.address && u.chain == t.chain) then combined
      else combined ++ [t])
    addressTokens

/-- The `full-match` filter of the `general-search` tool: exact case-insensitive
equality of the query with the address, the symbol, or the name. -/
def generalMatchFilter (st : SearchType) (query : String) (l : List Token) : List Token :=
  match st with
  | .fullMatch =>
    let normalizedQuery := query.lowerAscii
    l.filter (fun t => t.address.lowerAscii == normalizedQuery
      || t.symbol.lowerAscii == normalizedQuery || t.name.lowerAscii == normalizedQuery)
  | .partialMatch => l

/-- The matched-and-filtered set of the `general-search` tool, before ranking
and truncation. -/
def generalToolCandidates (catalog : List Token) (query : String) (chain : Option ChainType)
    (st : SearchType) : List Token :=
  generalMatchFilter st query (generalCandidates catalog query chain)

/-- The token list produced by the `general-search` tool of server.ts. -/
def generalSearchToolTokens (catalog : List Token) (query : String) (chain : Option ChainType)
    (searchType : Option SearchType) (limit : Option Int) : List Token :=
  let st := searchType.getD SearchType.fullMatch
  let lim := effectiveLimit 1000 limit
  jsSliceEnd lim (sortByProvDesc (generalToolCandidates catalog query chain st))

/-- Result of one tool call: the `isError` flag and the text payload. -/
structure ToolResult where
  isError : Bool
  text : String
deriving DecidableEq, Repr

/-- The chain name as it appears in the tool's message strings. -/
def chainName : ChainType → String
  | .bnb => "bnb"
  | .solana => "solana"
  | .ton => "ton"

/-- Stands for `JSON.stringify(token, null, 2)` in the success branch of
`get-token-by-address`; the exact rendering is plumbing the claims do not
depend on, only that the found token's data is returned without an error
flag. -/
def tokenJson (t : Token) : String :=
  "\x7b \"address\": \"" ++ t.address ++ "\", \"chain\": \"" ++ chainName t.chain ++
    "\", \"name\": \"" ++ t.name ++ "\", \"symbol\": \"" ++ t.symbol ++ "\" \x7d"

/-- The `get-token-by-address` tool of server.ts: default chain `solana`; a
miss is returned as a result with `isError := true` and a descriptive text,
not a raised error. -/
def getTokenByAddressTool (catalog : List Token) (address : String)
    (chain : Option ChainType) : ToolResult :=
  let c := chain.getD ChainType.solana
  match getTokenByAddress catalog address c with
  | none =>
    { isError := true
      text := "Token not found with address " ++ address ++ " on chain " ++ chainName c }
  | some token => { isError := false, text := tokenJson token }

/-! ## CSV parsing (`parseCSVToTokenList` and `loadTokenListFromCSV`) -/

/-- JS `s.replace(/"/g, '')`: remove every double quote. -/
def stripQuotes (s : String) : String :=
  String.mk (s.toList.filter (fun c => c ≠ '"'))

/-- The quote-aware value splitter of `parseCSVToTokenList`: walk the row one
character at a time, toggling `insideQuotes` on `"`, splitting on commas only
outside quotes, and pushing the final cell at the end. -/
def splitRowValues (row : String) : List String :=
  let fin := row.toList.foldl
    (fun (acc : List String × String × Bool) c =>
      let values := acc.1
      let currentValue := acc.2.1
      let insideQuotes := acc.2.2
      if c == '"' then (values, currentValue, !insideQuotes)
      else if c == ',' && !insideQuotes then (values ++ [currentValue], "", insideQuotes)
      else (values, currentValue.push c, insideQuotes))
    ([], "", false)
  fin.1 ++ [fin.2.1]

/-- JS `Array.prototype.indexOf`: index of the first occurrence, `-1` when
absent. -/
def jsIndexOf (l : List String) (s : String) : Int :=
  match l.findIdx? (fun x => x == s) with
  | none => -1
  | some i => (i : Int)

/-- Numeric value of a digit string. -/
def digitsVal (ds : List Char) : Nat :=
  ds.foldl (fun acc c => acc * 10 + (c.toNat - '0'.toNat)) 0

/-- JS `parseInt(s, 10)`: skip leading whitespace, read an optional sign and a
longest run of decimal digits, ignore the rest; `none` models `NaN` (no digit
found). -/
def jsParseInt (s : String) : Option Int :=
  let cs := s.toList.dropWhile (fun c => c.isWhitespace)
  let signAndRest : Int × List Char :=
    match cs with
    | '-' :: r => (-1, r)
    | '+' :: r => (1, r)
    | _ => (1, cs)
  let digits := signAndRest.2.takeWhile (fun c => c.isDigit)
  if digits.isEmpty then none else some (signAndRest.1 * (digitsVal digits : Int))

/-- JS `values[idx]` followed by a method call: accessing an index at or past
the end yields `undefined`, and calling `.replace` on it throws a
`TypeError`; the error is modelled as an `Except.error`.  Only called with
`idx ≥ 0`. -/
def jsGetCell (values : List String) (idx : Int) : Except String String :=
  match values.get? idx.toNat with
  | none => Except.error "TypeError: cannot read properties of undefined"
  | some v => Except.ok v

/-- The body of the row loop of `parseCSVToTokenList` for one non-blank data
row: split it quote-aware, and when the header has all four required columns,
read and unquote the cells (throwing when a required or present optional
column's cell is missing), parse `decimals` with fallback 18, and normalize a
`"NULL"` logo URI to absent.  When the header lacks a required column the row
yields no token. -/
def parseRow (headers : List String) (chain : ChainType) (row : String) :
    Except String (Option Token) :=
  let values := splitRowValues row
  let addressIndex := jsIndexOf headers "token_address"
  let nameIndex := jsIndexOf headers "name"
  let symbolIndex := jsIndexOf headers "symbol"
  let decimalsIndex := jsIndexOf headers "decimals"
  let logoUriIndex := jsIndexOf headers "logo_uri"
  if addressIndex ≥ 0 ∧ nameIndex ≥ 0 ∧ symbolIndex ≥ 0 ∧ decimalsIndex ≥ 0 then
    match jsGetCell values addressIndex with
    | Except.error e => Except.error e
    | Except.ok addressCell =>
      match jsGetCell values nameIndex with
      | Except.error e => Except.error e
      | Except.ok nameCell =>
        match jsGetCell values symbolIndex with
        | Except.error e => Except.error e
        | Except.ok symbolCell =>
          match jsGetCell values decimalsIndex with
          | Except.error e => Except.error e
          | Except.ok decimalsCell =>
            match (if logoUriIndex ≥ 0 then
                (jsGetCell values logoUriIndex).map (fun v => some (stripQuotes v))
              else Except.ok none) with
            | Except.error e => Except.error e
            | Except.ok logoURI =>
              Except.ok (some
                { address := stripQuotes addressCell
                  chain := chain
                  decimals :=
                    match jsParseInt (stripQuotes decimalsCell) with
                    | none => 18
                    | some n => n
                  logoURI := if logoURI == some "NULL" then none else logoURI
                  name := stripQuotes nameCell
                  symbol := stripQuotes symbolCell
                  tokenLists := none })
  else
    Except.ok none

/-- The headers of a CSV document: first line, split on plain commas, each
cell unquoted and trimmed. -/
def csvHeaders (csvContent : String) : List String :=
  ((csvContent.splitChar (Char.ofNat 10)).headI.splitChar ',').map (fun h => (stripQuotes h).trimWs)

/-- One step of the row loop: blank rows are skipped, a thrown error
propagates, and a parsed token is appended. -/
def parseRowStep (headers : List String) (chain : ChainType)
    (acc : Except String (List Token)) (row : String) : Except String (List Token) :=
  match acc with
  | Except.error e => Except.error e
  | Except.ok toks =>
    if row.trimWs == "" then Except.ok toks
    else
      match parseRow headers chain row with
      | Except.error e => Except.error e
      | Except.ok none => Except.ok toks
      | Except.ok (some t) => Except.ok (toks ++ [t])

/-- `parseCSVToTokenList(csvContent, filename, chain)`: split into lines,
derive the headers from the first line, then run the row loop over the
remaining lines.  A thrown cell access error escapes the whole parse. -/
def parseCSVToTokenList (csvContent : String) (filename : String) (chain : ChainType) :
    Except String TokenList :=
  let rows := csvContent.splitChar (Char.ofNat 10)
  let headers := csvHeaders csvContent
  match rows.tail.foldl (parseRowStep headers chain) (Except.ok []) with
  | Except.error e => Except.error e
  | Except.ok toks => Except.ok { name := filename, tokens := toks }

/-- `loadTokenListFromCSV` after a successful fetch of `csvContent` from
`filepath` (the fetch itself is I/O and outside the model): the `try/catch`
turns any error thrown while parsing into a logged diagnostic and `null`. -/
def loadTokenListFromCSVContent (csvContent : String) (filepath : String)
    (chain : ChainType) : Option TokenList :=
  match parseCSVToTokenList csvContent filepath chain with
  | Except.ok tl => some tl
  | Except.error _ => none

/-! ## Provenance bookkeeping helpers -/

/-- The `tokenLists` update of the merge: append a list name unless already
present. -/
def addName (ns : List String) (n : String) : List String :=
  if n ∈ ns then ns else ns ++ [n]

/-- Whether a source list contains a record with the given (lower-cased
address, chain) identity. -/
def hasIdentity (sl : TokenList) (a : String) (ch : ChainType) : Bool :=
  sl.tokens.any (keyMatches a ch)

/-- The names of the source lists containing a record with the given identity,
in merge order. -/
def contributorNames (lists : List TokenList) (a : String) (ch : ChainType) : List String :=
  (lists.filter (fun sl => hasIdentity sl a ch)).map (fun sl => sl.name)

/-- The catalog entry for a (lower-cased address, chain) identity: first match
in catalog order. -/
def findTok (c : List Token) (a : String) (ch : ChainType) : Option Token :=
  c.find? (keyMatches a ch)

/-- First-seen deduplication: keep each name's first occurrence, dropping
later repeats; `seen` carries the names already emitted. -/
def dedupKeep (seen : List String) : List String → List String
  | [] => []
  | x :: xs => if x ∈ seen then dedupKeep seen xs else x :: dedupKeep (seen ++ [x]) xs

/-- Index of the first occurrence of a name. -/
def firstIdx (n : String) : List String → Nat
  | [] => 0
  | x :: xs => if x = n then 0 else firstIdx n xs + 1

/-! ## Basic lemmas about the merge -/

theorem keyMatches_iff {a : String} {ch : ChainType} {t : Token} :
    keyMatches a ch t = true ↔ t.address.lowerAscii = a ∧ t.chain = ch := by
  simp [keyMatches]

theorem keyMatches_false_iff {a : String} {ch : ChainType} {t : Token} :
    keyMatches a ch t = false ↔ ¬(t.address.lowerAscii = a ∧ t.chain = ch) := by
  rw [← Bool.not_eq_true, keyMatches_iff]

theorem updateExisting_address (e tok : Token) (nm : String) :
    (updateExisting e tok nm).address = e.address := rfl

theorem updateExisting_chain (e tok : Token) (nm : String) :
    (updateExisting e tok nm).chain = e.chain := rfl

theorem findTok_nil (a : String) (ch : ChainType) : findTok [] a ch = none := rfl

theorem findTok_cons (t : Token) (c : List Token) (a : String) (ch : ChainType) :
    findTok (t :: c) a ch = if keyMatches a ch t then some t else findTok c a ch := by
  by_cases h : keyMatches a ch t <;> simp [findTok, List.find?, h]

/-- `keyMatches` depends on a token only through its identity, which
`updateExisting` preserves. -/
theorem keyMatches_updateExisting (a : String) (ch : ChainType) (e tok : Token) (nm : String) :
    keyMatches a ch (updateExisting e tok nm) = keyMatches a ch e := by
  simp [keyMatches, updateExisting]

/-- Effect of one merge step on lookups: the entry for the incoming record's
identity is field-filled (or freshly inserted), and every other identity's
lookup is untouched. -/
theorem findTok_mergeOne (c : List Token) (nm : String) (tok : Token) (a : String)
    (ch : ChainType) :
    findTok (mergeOne nm tok c) a ch =
      if a = tok.address.lowerAscii ∧ ch = tok.chain then
        match findTok c a ch with
        | none => some { tok with tokenLists := some [nm] }
        | some e => some (updateExisting e tok nm)
      else findTok c a ch := by
  induction c with
  | nil =>
    by_cases h : a = tok.address.lowerAscii ∧ ch = tok.chain
    · obtain ⟨h1, h2⟩ := h
      subst h1
      subst h2
      simp [mergeOne, findTok_cons, findTok_nil, keyMatches_iff]
    · have hk : keyMatches a ch ({ tok with tokenLists := some [nm] } : Token) = false := by
        rw [keyMatches_false_iff]
        intro ⟨h1, h2⟩
        exact h ⟨h1.symm, h2.symm⟩
      simp [mergeOne, findTok_cons, hk, findTok_nil, h]
  | cons t rest ih =>
    cases hm : keyMatches tok.address.lowerAscii tok.chain t with
    | true =>
      -- the head is the first entry with the incoming identity
      have hmt := keyMatches_iff.mp hm
      by_cases h : a = tok.address.lowerAscii ∧ ch = tok.chain
      · obtain ⟨h1, h2⟩ := h
        subst h1
        subst h2
        have hk' : keyMatches tok.address.lowerAscii tok.chain (updateExisting t tok nm) = true := by
          rw [keyMatches_updateExisting]
          exact hm
        simp [mergeOne, hm, findTok_cons, hk', findTok_nil]
      · have hk : keyMatches a ch t = false := by
          rw [keyMatches_false_iff]
          intro ⟨h1, h2⟩
          exact h ⟨h1.symm.trans hmt.1, h2.symm.trans hmt.2⟩
        have hk' : keyMatches a ch (updateExisting t tok nm) = false := by
          rw [keyMatches_updateExisting]
          exact hk
        simp [mergeOne, hm, findTok_cons, hk, hk', h]
    | false =>
      -- the head does not carry the incoming identity
      cases hk : keyMatches a ch t with
      | true =>
        have hkt := keyMatches_iff.mp hk
        have h : ¬(a = tok.address.lowerAscii ∧ ch = tok.chain) := by
          intro ⟨h1, h2⟩
          have hcontra : keyMatches tok.address.lowerAscii tok.chain t = true :=
            keyMatches_iff.mpr ⟨hkt.1.trans h1, hkt.2.trans h2⟩
          rw [hm] at hcontra
          exact Bool.false_ne_true hcontra
        simp [mergeOne, hm, findTok_cons, hk, h]
      | false =>
        simp [mergeOne, hm, findTok_cons, hk, ih]

/-- Identity of an entry produced by a merge step: either it was already in
the catalog (with the same identity) or it carries the incoming record's
identity. -/
theorem mergeOne_mem_ident {nm : String} {tok b : Token} {c : List Token}
    (hb : b ∈ mergeOne nm tok c) :
    (∃ e ∈ c, b.address.lowerAscii = e.address.lowerAscii ∧ b.chain = e.chain) ∨
      (b.address.lowerAscii = tok.address.lowerAscii ∧ b.chain = tok.chain) := by
  induction c with
  | nil =>
    simp only [mergeOne, List.mem_singleton] at hb
    right
    subst hb
    exact ⟨rfl, rfl⟩
  | cons t rest ih =>
    cases hm : keyMatches tok.address.lowerAscii tok.chain t with
    | true =>
      simp only [mergeOne] at hb
      rw [if_pos hm] at hb
      rcases List.mem_cons.mp hb with hb | hb
      · left
        refine ⟨t, List.mem_cons_self t rest, ?_, ?_⟩
        · rw [hb]
          exact congrArg String.lowerAscii (updateExisting_address t tok nm)
        · rw [hb]
          exact updateExisting_chain t tok nm
      · left
        exact ⟨b, List.mem_cons_of_mem t hb, rfl, rfl⟩
    | false =>
      simp only [mergeOne] at hb
      rw [if_neg (by rw [hm]; exact Bool.false_ne_true)] at hb
      rcases List.mem_cons.mp hb with hb | hb
      · left
        exact ⟨t, List.mem_cons_self t rest, by rw [hb], by rw [hb]⟩
      · rcases ih hb with ⟨e, he, hid⟩ | hid
        · exact Or.inl ⟨e, List.mem_cons_of_mem t he, hid⟩
        · exact Or.inr hid

/-- Catalog entries have pairwise distinct (lower-cased address, chain)
identities. -/
def IdentUnique (c : List Token) : Prop :=
  c.Pairwise (fun t u => ¬(t.address.lowerAscii = u.address.lowerAscii ∧ t.chain = u.chain))

theorem identUnique_mergeOne {c : List Token} (nm : String) (tok : Token)
    (h : IdentUnique c) : IdentUnique (mergeOne nm tok c) := by
  induction c with
  | nil => simp [mergeOne, IdentUnique]
  | cons t rest ih =>
    rw [IdentUnique, List.pairwise_cons] at h
    obtain ⟨hhead, hrest⟩ := h
    cases hm : keyMatches tok.address.lowerAscii tok.chain t with
    | true =>
      simp only [mergeOne]
      rw [if_pos hm, IdentUnique, List.pairwise_cons]
      refine ⟨fun u hu => ?_, hrest⟩
      intro ⟨h1, h2⟩
      refine hhead u hu ⟨?_, ?_⟩
      · exact (congrArg String.lowerAscii (updateExisting_address t tok nm)).symm.trans h1
      · exact (updateExisting_chain t tok nm).symm.trans h2
    | false =>
      simp only [mergeOne]
      rw [if_neg (by rw [hm]; exact Bool.false_ne_true), IdentUnique, List.pairwise_cons]
      refine ⟨fun u hu => ?_, ih hrest⟩
      intro ⟨h1, h2⟩
      rcases mergeOne_mem_ident hu with ⟨e, he, he1, he2⟩ | ⟨hu1, hu2⟩
      · exact hhead e he ⟨h1.trans he1, h2.trans he2⟩
      · have hcontra : keyMatches tok.address.lowerAscii tok.chain t = true :=
          keyMatches_iff.mpr ⟨h1.trans hu1, h2.trans hu2⟩
        rw [hm] at hcontra
        exact Bool.false_ne_true hcontra

theorem identUnique_mergeTokenList {c : List Token} (sl : TokenList)
    (h : IdentUnique c) : IdentUnique (mergeTokenList c sl) := by
  rw [mergeTokenList]
  induction sl.tokens generalizing c with
  | nil => exact h
  | cons tok rest ih => exact ih (identUnique_mergeOne sl.name tok h)

theorem identUnique_foldl (lists : List TokenList) (c : List Token) (h : IdentUnique c) :
    IdentUnique (lists.foldl mergeTokenList c) := by
  induction lists generalizing c with
  | nil => exact h
  | cons sl rest ih => exact ih _ (identUnique_mergeTokenList sl h)

theorem identUnique_mergeAll (lists : List TokenList) : IdentUnique (mergeAll lists) :=
  identUnique_foldl lists [] List.Pairwise.nil

/-- In a duplicate-free catalog, looking up a member token's own identity
returns that token. -/
theorem findTok_self {c : List Token} (hu : IdentUnique c) {t : Token} (ht : t ∈ c) :
    findTok c t.address.lowerAscii t.chain = some t := by
  induction c with
  | nil => cases ht
  | cons x rest ih =>
    rw [IdentUnique, List.pairwise_cons] at hu
    obtain ⟨hhead, hrest⟩ := hu
    rcases List.mem_cons.mp ht with rfl | ht'
    · rw [findTok_cons, if_pos (keyMatches_iff.mpr ⟨rfl, rfl⟩)]
    · cases hk : keyMatches t.address.lowerAscii t.chain x with
      | true =>
        have hkt := keyMatches_iff.mp hk
        exact absurd ⟨hkt.1, hkt.2⟩ (hhead t ht')
      | false =>
        rw [findTok_cons, if_neg (by rw [hk]; exact Bool.false_ne_true)]
        exact ih hrest ht'

/-! ## Claim theorems -/

/-- Concrete example record: symbol "FOO" at identity ("0x1", solana). -/
def exTokFOO : Token :=
  { address := "0x1", chain := ChainType.solana, decimals := 6, logoURI := none,
    name := "TA", symbol := "FOO", tokenLists := none }

/-- Concrete example record: symbol "BAR" at the same identity. -/
def exTokBAR : Token :=
  { address := "0x1", chain := ChainType.solana, decimals := 9, logoURI := none,
    name := "TB", symbol := "BAR", tokenLists := none }

/-- Concrete example source list "A" containing `exTokFOO`. -/
def exListA : TokenList := { name := "A", tokens := [exTokFOO] }

/-- Concrete example source list "B" containing `exTokBAR`. -/
def exListB : TokenList := { name := "B", tokens := [exTokBAR] }

/-- **C1** — merge field-fill is first-writer-wins: when a record's identity
already exists in the catalog, the merge replaces that entry by its
field-filled update, and each of name, symbol, decimals, logoURI is
overwritten exactly when the existing value is falsy (empty string, zero, or
absent/empty logo) and the incoming one is present; concretely, merging
source A (symbol "FOO") then source B (symbol "BAR") for the same identity
yields symbol "FOO", and merging in the other order yields "BAR". -/
theorem C1_field_fill_first_writer_wins :
    (∀ (c : List Token) (nm : String) (tok e : Token),
      findTok c tok.address.lowerAscii tok.chain = some e →
        findTok (mergeOne nm tok c) tok.address.lowerAscii tok.chain
          = some (updateExisting e tok nm))
    ∧ (∀ (e tok : Token) (nm : String),
        (updateExisting e tok nm).name
            = (if e.name = "" ∧ tok.name ≠ "" then tok.name else e.name)
        ∧ (updateExisting e tok nm).symbol
            = (if e.symbol = "" ∧ tok.symbol ≠ "" then tok.symbol else e.symbol)
        ∧ (updateExisting e tok nm).decimals
            = (if e.decimals = 0 ∧ tok.decimals ≠ 0 then tok.decimals else e.decimals)
        ∧ (updateExisting e tok nm).logoURI
            = (if optStrTruthy e.logoURI = false ∧ optStrTruthy tok.logoURI = true
               then tok.logoURI else e.logoURI))
    ∧ (mergeAll [exListA, exListB]).map Token.symbol = ["FOO"]
    ∧ (mergeAll [exListB, exListA]).map Token.symbol = ["BAR"] := by
  refine ⟨?_, ?_, by decide, by decide⟩
  · intro c nm tok e hfound
    rw [findTok_mergeOne, if_pos ⟨rfl, rfl⟩, hfound]
  · intro e tok nm
    refine ⟨?_, ?_, ?_, ?_⟩
    · by_cases h1 : e.name = "" <;> by_cases h2 : tok.name = "" <;>
        simp [updateExisting, strTruthy, h1, h2]
    · by_cases h1 : e.symbol = "" <;> by_cases h2 : tok.symbol = "" <;>
        simp [updateExisting, strTruthy, h1, h2]
    · by_cases h1 : e.decimals = 0 <;> by_cases h2 : tok.decimals = 0 <;>
        simp [updateExisting, h1, h2]
    · cases hE : optStrTruthy e.logoURI <;> cases hT : optStrTruthy tok.logoURI <;>
        simp [updateExisting, hE, hT]

/-- Witness for C1: a concrete merge step over a one-entry catalog. -/
theorem C1_field_fill_first_writer_wins_witness :
    findTok (mergeOne "B" exTokBAR [exTokFOO]) exTokBAR.address.lowerAscii exTokBAR.chain
      = some (updateExisting exTokFOO exTokBAR "B") :=
  C1_field_fill_first_writer_wins.1 [exTokFOO] "B" exTokBAR exTokFOO (by decide)

/-- **C2** — catalog identity uniqueness: after any sequence of merges from
the empty catalog, two entries with the same lower-cased address and the same
chain sit at the same position, i.e. the (address lower-cased, chain) pair is
unique in the catalog. -/
theorem C2_identity_unique (lists : List TokenList) (i j : Nat)
    (hi : i < (mergeAll lists).length) (hj : j < (mergeAll lists).length)
    (haddr : ((mergeAll lists).get ⟨i, hi⟩).address.lowerAscii
      = ((mergeAll lists).get ⟨j, hj⟩).address.lowerAscii)
    (hchain : ((mergeAll lists).get ⟨i, hi⟩).chain = ((mergeAll lists).get ⟨j, hj⟩).chain) :
    i = j := by
  by_contra hne
  have hp := identUnique_mergeAll lists
  rw [IdentUnique, List.pairwise_iff_getElem] at hp
  simp only [List.get_eq_getElem] at haddr hchain
  rcases Nat.lt_or_ge i j with hlt | hge
  · exact hp i j hi hj hlt ⟨haddr, hchain⟩
  · have hlt : j < i := Nat.lt_of_le_of_ne hge fun h => hne h.symm
    exact hp j i hj hi hlt ⟨haddr.symm, hchain.symm⟩

/-- Witness for C2: in the catalog merged from one concrete source, position
0 compared with itself. -/
theorem C2_identity_unique_witness : (0 : Nat) = 0 :=
  C2_identity_unique [exListA] 0 0 (by decide) (by decide) rfl rfl

/-- **C8** — the decimals fill check is a falsy test: an existing entry with
decimals 0 is treated as unset and a later source's non-zero decimals
overwrites it, while any non-zero existing decimals is never overwritten. -/
theorem C8_decimals_falsy_fill (e tok : Token) (nm : String) :
    (e.decimals = 0 → tok.decimals ≠ 0 → (updateExisting e tok nm).decimals = tok.decimals)
    ∧ (e.decimals ≠ 0 → (updateExisting e tok nm).decimals = e.decimals) := by
  constructor
  · intro h0 hnz
    simp [updateExisting, h0, hnz]
  · intro hnz
    simp [updateExisting, hnz]

/-- Witness for C8: an existing decimals of 0 is overwritten by 9; an
existing decimals of 6 survives an incoming 9. -/
theorem C8_decimals_falsy_fill_witness :
    (updateExisting { exTokFOO with decimals := 0 } exTokBAR "B").decimals = 9
    ∧ (updateExisting exTokFOO exTokBAR "B").decimals = 6 :=
  ⟨(C8_decimals_falsy_fill { exTokFOO with decimals := 0 } exTokBAR "B").1
      (by decide) (by decide),
   (C8_decimals_falsy_fill exTokFOO exTokBAR "B").2 (by decide)⟩

/-- **C6** — address lookup and miss surfacing: `getTokenByAddress` returns
the first catalog entry whose lower-cased address equals the lower-cased
input with an exactly matching chain (so `"0xABC"` finds an entry stored as
`"0xabc"`), returns `none` exactly when no entry matches, and the
`get-token-by-address` tool turns a miss into a result flagged
`isError := true` carrying a descriptive message rather than a raised
error. -/
theorem C6_lookup_first_match_and_error_surface :
    (∀ (a : String) (ch : ChainType) (pre suf : List Token) (t : Token),
      t.address.lowerAscii = a.lowerAscii → t.chain = ch →
      (∀ x ∈ pre, ¬(x.address.lowerAscii = a.lowerAscii ∧ x.chain = ch)) →
      getTokenByAddress (pre ++ t :: suf) a ch = some t)
    ∧ (∀ (c : List Token) (a : String) (ch : ChainType),
        getTokenByAddress c a ch = none
          ↔ ∀ t ∈ c, ¬(t.address.lowerAscii = a.lowerAscii ∧ t.chain = ch))
    ∧ getTokenByAddress [{ exTokFOO with address := "0xabc" }] "0xABC" ChainType.solana
        = some { exTokFOO with address := "0xabc" }
    ∧ (∀ (c : List Token) (a : String) (chOpt : Option ChainType),
        (getTokenByAddress c a (chOpt.getD ChainType.solana) = none →
          getTokenByAddressTool c a chOpt =
            { isError := true
              text := "Token not found with address " ++ a ++ " on chain "
                ++ chainName (chOpt.getD ChainType.solana) })
        ∧ (∀ t, getTokenByAddress c a (chOpt.getD ChainType.solana) = some t →
            getTokenByAddressTool c a chOpt = { isError := false, text := tokenJson t })) := by
  refine ⟨?_, ?_, by decide, ?_⟩
  · intro a ch pre suf t ht1 ht2 hpre
    induction pre with
    | nil =>
      show findTok (t :: suf) a.lowerAscii ch = some t
      rw [findTok_cons, if_pos (keyMatches_iff.mpr ⟨ht1, ht2⟩)]
    | cons x ps ih =>
      show findTok (x :: (ps ++ t :: suf)) a.lowerAscii ch = some t
      rw [findTok_cons,
        if_neg (fun hx => hpre x (List.mem_cons_self x ps) (keyMatches_iff.mp hx))]
      exact ih fun y hy => hpre y (List.mem_cons_of_mem x hy)
  · intro c a ch
    rw [getTokenByAddress, List.find?_eq_none]
    constructor
    · intro h t ht hid
      exact h t ht (keyMatches_iff.mpr hid)
    · intro h t ht hk
      exact h t ht (keyMatches_iff.mp hk)
  · intro c a chOpt
    constructor
    · intro h
      simp [getTokenByAddressTool, h]
    · intro t h
      simp [getTokenByAddressTool, h]

/-- Witness for C6: the case-differing concrete lookup, via the first-match
part with an empty prefix. -/
theorem C6_lookup_first_match_and_error_surface_witness :
    getTokenByAddress ([] ++ { exTokFOO with address := "0xabc" } :: []) "0xABC"
        ChainType.solana
      = some { exTokFOO with address := "0xabc" } :=
  C6_lookup_first_match_and_error_surface.1 "0xABC" ChainType.solana [] []
    { exTokFOO with address := "0xabc" } (by decide) (by decide) (by decide)

/-! ## Properties of the ranking sort and the truncation -/

theorem insertByProv_perm (t : Token) (l : List Token) :
    List.Perm (insertByProv t l) (t :: l) := by
  induction l with
  | nil => rfl
  | cons h rest ih =>
    rw [insertByProv]
    by_cases hc : provCount h ≤ provCount t
    · rw [if_pos hc]
    · rw [if_neg hc]
      exact (List.Perm.cons h ih).trans (List.Perm.swap t h rest)

theorem sortByProvDesc_perm (l : List Token) : List.Perm (sortByProvDesc l) l := by
  induction l with
  | nil => rfl
  | cons h rest ih =>
    rw [sortByProvDesc]
    exact (insertByProv_perm h (sortByProvDesc rest)).trans (List.Perm.cons h ih)

theorem insertByProv_pairwise {l : List Token} (t : Token)
    (hl : l.Pairwise (fun a b => provCount b ≤ provCount a)) :
    (insertByProv t l).Pairwise (fun a b => provCount b ≤ provCount a) := by
  induction l with
  | nil => exact List.pairwise_singleton _ _
  | cons h rest ih =>
    rw [List.pairwise_cons] at hl
    obtain ⟨hhead, hrest⟩ := hl
    rw [insertByProv]
    by_cases hc : provCount h ≤ provCount t
    · rw [if_pos hc, List.pairwise_cons]
      refine ⟨fun x hx => ?_, List.pairwise_cons.mpr ⟨hhead, hrest⟩⟩
      rcases List.mem_cons.mp hx with rfl | hx'
      · exact hc
      · exact le_trans (hhead x hx') hc
    · rw [if_neg hc, List.pairwise_cons]
      refine ⟨fun x hx => ?_, ih hrest⟩
      rcases List.mem_cons.mp ((insertByProv_perm t rest).mem_iff.mp hx) with rfl | hx'
      · exact le_of_lt (lt_of_not_le hc)
      · exact hhead x hx'

theorem sortByProvDesc_pairwise (l : List Token) :
    (sortByProvDesc l).Pairwise (fun a b => provCount b ≤ provCount a) := by
  induction l with
  | nil => exact List.Pairwise.nil
  | cons h rest ih => exact insertByProv_pairwise h ih

theorem insertByProv_filter (t : Token) (l : List Token) (k : Nat) :
    (insertByProv t l).filter (fun x => provCount x == k)
      = if provCount t = k then t :: l.filter (fun x => provCount x == k)
        else l.filter (fun x => provCount x == k) := by
  induction l with
  | nil =>
    by_cases hk : provCount t = k <;> simp [insertByProv, List.filter_cons, hk]
  | cons h rest ih =>
    rw [insertByProv]
    by_cases hc : provCount h ≤ provCount t
    · rw [if_pos hc]
      by_cases hk : provCount t = k <;> simp [List.filter_cons, hk]
    · rw [if_neg hc]
      rw [List.filter_cons, List.filter_cons, ih]
      by_cases hk : provCount t = k
      · have hh : ¬(provCount h = k) := fun hh => hc (le_of_eq (hh.trans hk.symm))
        simp [hk, hh, List.filter_cons]
      · by_cases hh : provCount h = k <;> simp [hk, hh, List.filter_cons]

/-- Stability of the ranking sort: for every provenance count, the sublist of
tokens with that count is exactly the one of the input, in the same order. -/
theorem sortByProvDesc_filter (l : List Token) (k : Nat) :
    (sortByProvDesc l).filter (fun x => provCount x == k)
      = l.filter (fun x => provCount x == k) := by
  induction l with
  | nil => rfl
  | cons h rest ih =>
    rw [sortByProvDesc, insertByProv_filter]
    by_cases hk : provCount h = k
    · rw [if_pos hk, ih]
      simp [List.filter, hk]
    · rw [if_neg hk, ih]
      have : (provCount h == k) = false := by
        simpa using hk
      simp [List.filter, this]

theorem jsSliceEnd_nonneg {n : Int} (l : List Token) (hn : 0 ≤ n) :
    jsSliceEnd n l = l.take n.toNat := by
  rw [jsSliceEnd, if_neg (not_lt.mpr hn)]

theorem jsSliceEnd_all {n : Int} (l : List Token) (hn : (l.length : Int) ≤ n) :
    jsSliceEnd n l = l := by
  have h0 : (0 : Int) ≤ n := le_trans (Int.ofNat_nonneg _) hn
  rw [jsSliceEnd_nonneg l h0]
  exact List.take_of_length_le ((Int.le_toNat h0).mpr hn)

/-- Concrete token for the ranking examples: symbol "tok", with a given
provenance list. -/
def exProvTok (s : String) (ns : List String) : Token :=
  { address := s, chain := ChainType.ton, decimals := 1, logoURI := none,
    name := s, symbol := "tok", tokenLists := some ns }

/-- A five-entry catalog whose provenance counts are 2, 5, 1, 4, 3 in catalog
order; every entry matches the query "tok". -/
def ex5Catalog : List Token :=
  [exProvTok "a" ["1", "2"], exProvTok "b" ["1", "2", "3", "4", "5"], exProvTok "c" ["1"],
   exProvTok "d" ["1", "2", "3", "4"], exProvTok "e" ["1", "2", "3"]]

/-- **C5** — ranking and truncation: every search tool's final list is the
stable descending sort by `tokenLists.length` of the matched set, sliced to
the first `limit` entries; the sort is a permutation, is pairwise descending
in provenance count, and preserves the relative catalog order of ties; an
absent limit defaults to 1000 (100 in the minimal variant); a limit at least
the match count returns everything (no enforced upper bound); and on a
concrete 5-match query, `limit = 2` returns exactly the top 2 by ranking. -/
theorem C5_ranking_truncation :
    (∀ (catalog : List Token) (query : String) (chain : Option ChainType)
        (st : Option SearchType) (lim : Option Int),
      searchTokensToolTokens catalog query chain st lim
        = jsSliceEnd (effectiveLimit 1000 lim)
            (sortByProvDesc (searchToolCandidates catalog query chain
              (st.getD SearchType.fullMatch))))
    ∧ (∀ (catalog : List Token) (query : String) (st : Option SearchType)
        (lim : Option Int),
      searchTokensToolMinTokens catalog query st lim
        = jsSliceEnd (effectiveLimit 100 lim)
            (sortByProvDesc (searchToolCandidates catalog query none
              (st.getD SearchType.fullMatch))))
    ∧ (∀ (catalog : List Token) (query : String) (chain : Option ChainType)
        (st : Option SearchType) (lim : Option Int),
      generalSearchToolTokens catalog query chain st lim
        = jsSliceEnd (effectiveLimit 1000 lim)
            (sortByProvDesc (generalToolCandidates catalog query chain
              (st.getD SearchType.fullMatch))))
    ∧ (∀ l : List Token, List.Perm (sortByProvDesc l) l)
    ∧ (∀ l : List Token, (sortByProvDesc l).Pairwise (fun a b => provCount b ≤ provCount a))
    ∧ (∀ (l : List Token) (k : Nat),
        (sortByProvDesc l).filter (fun x => provCount x == k)
          = l.filter (fun x => provCount x == k))
    ∧ effectiveLimit 1000 none = 1000
    ∧ effectiveLimit 100 none = 100
    ∧ (∀ (l : List Token) (n : Int), 0 ≤ n → jsSliceEnd n l = l.take n.toNat)
    ∧ (∀ (l : List Token) (n : Int), (l.length : Int) ≤ n → jsSliceEnd n l = l)
    ∧ (searchTokensToolTokens ex5Catalog "tok" none none (some 2)).map Token.address
        = ["b", "d"] := by
  refine ⟨fun _ _ _ _ _ => rfl, fun _ _ _ _ => rfl, fun _ _ _ _ _ => rfl,
    sortByProvDesc_perm, sortByProvDesc_pairwise, sortByProvDesc_filter, rfl, rfl,
    fun l n hn => jsSliceEnd_nonneg l hn, fun l n hn => jsSliceEnd_all l hn, by decide⟩

/-- Witness for C5: truncation facts instantiated on the concrete 5-entry
catalog. -/
theorem C5_ranking_truncation_witness :
    jsSliceEnd 2 ex5Catalog = ex5Catalog.take 2 ∧ jsSliceEnd 7 ex5Catalog = ex5Catalog :=
  ⟨C5_ranking_truncation.2.2.2.2.2.2.2.2.1 ex5Catalog 2 (by decide),
   C5_ranking_truncation.2.2.2.2.2.2.2.2.2.1 ex5Catalog 7 (by decide)⟩

/-! ## Provenance accumulation -/

theorem mem_addName {ns : List String} {n m : String} :
    n ∈ addName ns m ↔ n ∈ ns ∨ n = m := by
  rw [addName]
  by_cases hm : m ∈ ns
  · rw [if_pos hm]
    constructor
    · exact Or.inl
    · rintro (h | rfl)
      · exact h
      · exact hm
  · rw [if_neg hm]
    simp

theorem self_mem_addName (ns : List String) (m : String) : m ∈ addName ns m :=
  mem_addName.mpr (Or.inr rfl)

theorem addName_idem (ns : List String) (m : String) :
    addName (addName ns m) m = addName ns m := by
  rw [addName, if_pos (self_mem_addName ns m)]

theorem mem_dedupKeep {seen xs : List String} {n : String} :
    n ∈ dedupKeep seen xs ↔ n ∉ seen ∧ n ∈ xs := by
  induction xs generalizing seen with
  | nil => simp [dedupKeep]
  | cons x rest ih =>
    rw [dedupKeep]
    by_cases hx : x ∈ seen
    · rw [if_pos hx, ih]
      constructor
      · rintro ⟨h1, h2⟩
        exact ⟨h1, List.mem_cons_of_mem x h2⟩
      · rintro ⟨h1, h2⟩
        rcases List.mem_cons.mp h2 with rfl | h2'
        · exact absurd hx h1
        · exact ⟨h1, h2'⟩
    · rw [if_neg hx]
      constructor
      · intro h
        rcases List.mem_cons.mp h with rfl | h'
        · exact ⟨hx, List.mem_cons_self n rest⟩
        · obtain ⟨h1, h2⟩ := ih.mp h'
          refine ⟨fun hs => h1 (List.mem_append_left _ hs), List.mem_cons_of_mem x h2⟩
      · rintro ⟨h1, h2⟩
        rcases List.mem_cons.mp h2 with rfl | h2'
        · exact List.mem_cons_self n _
        · by_cases hnx : n = x
          · subst hnx
            exact List.mem_cons_self n _
          · refine List.mem_cons_of_mem x (ih.mpr ⟨?_, h2'⟩)
            intro hs
            rcases List.mem_append.mp hs with hs' | hs'
            · exact h1 hs'
            · exact hnx (List.mem_singleton.mp hs')

theorem nodup_dedupKeep (seen xs : List String) : (dedupKeep seen xs).Nodup := by
  induction xs generalizing seen with
  | nil => exact List.nodup_nil
  | cons x rest ih =>
    rw [dedupKeep]
    by_cases hx : x ∈ seen
    · rw [if_pos hx]
      exact ih seen
    · rw [if_neg hx]
      refine List.Nodup.cons (fun hmem => ?_) (ih (seen ++ [x]))
      exact (mem_dedupKeep.mp hmem).1 (List.mem_append_right seen (List.mem_singleton.mpr rfl))

theorem foldl_addName_eq_dedupKeep (xs ns : List String) :
    xs.foldl addName ns = ns ++ dedupKeep ns xs := by
  induction xs generalizing ns with
  | nil => simp [dedupKeep]
  | cons x rest ih =>
    rw [List.foldl_cons, dedupKeep, addName]
    by_cases hx : x ∈ ns
    · rw [if_pos hx, if_pos hx, ih]
    · rw [if_neg hx, if_neg hx, ih (ns ++ [x]), List.append_assoc]
      rfl

theorem firstIdx_cons_self (n : String) (xs : List String) :
    firstIdx n (n :: xs) = 0 := by
  rw [firstIdx, if_pos rfl]

theorem firstIdx_cons_ne {x n : String} (xs : List String) (h : x ≠ n) :
    firstIdx n (x :: xs) = firstIdx n xs + 1 := by
  rw [firstIdx, if_neg h]

/-- First-seen order: the deduplicated name list is pairwise ordered by the
index of each name's first occurrence in the input. -/
theorem dedupKeep_pairwise_firstIdx (xs seen : List String) :
    (dedupKeep seen xs).Pairwise (fun a b => firstIdx a xs < firstIdx b xs) := by
  induction xs generalizing seen with
  | nil => exact List.Pairwise.nil
  | cons x rest ih =>
    rw [dedupKeep]
    by_cases hx : x ∈ seen
    · rw [if_pos hx]
      refine List.Pairwise.imp_of_mem ?_ (ih seen)
      intro a b ha hb hr
      have hax : a ≠ x := fun he => (mem_dedupKeep.mp ha).1 (by rw [he]; exact hx)
      have hbx : b ≠ x := fun he => (mem_dedupKeep.mp hb).1 (by rw [he]; exact hx)
      rw [firstIdx_cons_ne rest (Ne.symm hax), firstIdx_cons_ne rest (Ne.symm hbx)]
      exact Nat.succ_lt_succ hr
    · rw [if_neg hx]
      rw [List.pairwise_cons]
      constructor
      · intro b hb
        have hbx : b ≠ x := fun he =>
          (mem_dedupKeep.mp hb).1
            (by rw [he]; exact List.mem_append_right seen (List.mem_singleton.mpr rfl))
        rw [firstIdx_cons_self, firstIdx_cons_ne rest (Ne.symm hbx)]
        exact Nat.succ_pos _
      · refine List.Pairwise.imp_of_mem ?_ (ih (seen ++ [x]))
        intro a b ha hb hr
        have hax : a ≠ x := fun he =>
          (mem_dedupKeep.mp ha).1
            (by rw [he]; exact List.mem_append_right seen (List.mem_singleton.mpr rfl))
        have hbx : b ≠ x := fun he =>
          (mem_dedupKeep.mp hb).1
            (by rw [he]; exact List.mem_append_right seen (List.mem_singleton.mpr rfl))
        rw [firstIdx_cons_ne rest (Ne.symm hax), firstIdx_cons_ne rest (Ne.symm hbx)]
        exact Nat.succ_lt_succ hr

/-- The `tokenLists` value an entry state receives when a merge step touches
it: a fresh insert, or an entry without `tokenLists`, gets `[nm]`; an entry
with a name list gets `addName`. -/
def bumpProv (nm : String) : Option (Option (List String)) → Option (List String)
  | none => some [nm]
  | some none => some [nm]
  | some (some ns) => some (addName ns nm)

theorem updateExisting_tokenLists (e tok : Token) (nm : String) :
    (updateExisting e tok nm).tokenLists = bumpProv nm (some e.tokenLists) := by
  cases h : e.tokenLists <;> simp [updateExisting, bumpProv, addName, h]

theorem bumpProv_bump (nm : String) (x : Option (Option (List String))) :
    bumpProv nm (some (bumpProv nm x)) = bumpProv nm x := by
  match x with
  | none => simp [bumpProv, addName]
  | some none => simp [bumpProv, addName]
  | some (some ns) => simp [bumpProv, addName_idem]

/-- Effect of merging one source list's records (all under one list name) on
the `tokenLists` of the entry at any identity: touched once (regardless of
how many of the list's records carry the identity), or untouched. -/
theorem tokenLists_foldl_mergeOne (ts : List Token) (nm : String) (c : List Token)
    (a : String) (ch : ChainType) :
    (findTok (ts.foldl (fun c' t => mergeOne nm t c') c) a ch).map Token.tokenLists
      = if ts.any (keyMatches a ch) then
          some (bumpProv nm ((findTok c a ch).map Token.tokenLists))
        else (findTok c a ch).map Token.tokenLists := by
  induction ts generalizing c with
  | nil => simp
  | cons t ts' ih =>
    rw [List.foldl_cons, ih (mergeOne nm t c)]
    cases hk : keyMatches a ch t with
    | true =>
      have hkt := keyMatches_iff.mp hk
      have hcond : a = t.address.lowerAscii ∧ ch = t.chain := ⟨hkt.1.symm, hkt.2.symm⟩
      rw [findTok_mergeOne, if_pos hcond]
      cases hfc : findTok c a ch with
      | none =>
        cases hts : ts'.any (keyMatches a ch) <;>
          simp [hts, hk, bumpProv, addName]
      | some e =>
        cases hts : ts'.any (keyMatches a ch) <;>
          simp [hts, hk, updateExisting_tokenLists, bumpProv_bump]
    | false =>
      have hcond : ¬(a = t.address.lowerAscii ∧ ch = t.chain) := by
        intro ⟨h1, h2⟩
        have hc : keyMatches a ch t = true := keyMatches_iff.mpr ⟨h1.symm, h2.symm⟩
        rw [hk] at hc
        exact Bool.false_ne_true hc
      rw [findTok_mergeOne, if_neg hcond]
      simp [List.any_cons, hk]

theorem contributorNames_cons (sl : TokenList) (ls : List TokenList) (a : String)
    (ch : ChainType) :
    contributorNames (sl :: ls) a ch
      = if hasIdentity sl a ch then sl.name :: contributorNames ls a ch
        else contributorNames ls a ch := by
  by_cases h : hasIdentity sl a ch <;> simp [contributorNames, List.filter_cons, h]

/-- Effect of a whole merge sequence on the `tokenLists` of the entry at any
identity: one `bumpProv` per contributing source list, in merge order. -/
theorem tokenLists_foldl_mergeTokenList (ls : List TokenList) (c : List Token)
    (a : String) (ch : ChainType) :
    (findTok (ls.foldl mergeTokenList c) a ch).map Token.tokenLists
      = (contributorNames ls a ch).foldl (fun x nm => some (bumpProv nm x))
          ((findTok c a ch).map Token.tokenLists) := by
  induction ls generalizing c with
  | nil => simp [contributorNames]
  | cons sl ls' ih =>
    rw [List.foldl_cons, ih, contributorNames_cons,
      show mergeTokenList c sl = sl.tokens.foldl (fun c' t => mergeOne sl.name t c') c from rfl,
      tokenLists_foldl_mergeOne]
    by_cases hid : sl.tokens.any (keyMatches a ch) = true
    · rw [if_pos hid, if_pos (show hasIdentity sl a ch = true from hid), List.foldl_cons]
    · rw [if_neg hid, if_neg (show ¬hasIdentity sl a ch = true from hid)]

theorem tokenLists_mergeAll (lists : List TokenList) (a : String) (ch : ChainType) :
    (findTok (mergeAll lists) a ch).map Token.tokenLists
      = (contributorNames lists a ch).foldl (fun x nm => some (bumpProv nm x)) none := by
  have h := tokenLists_foldl_mergeTokenList lists [] a ch
  simpa [mergeAll, findTok_nil] using h

theorem foldl_bump_some (names ns : List String) :
    names.foldl (fun x nm => some (bumpProv nm x)) (some (some ns))
      = some (some (names.foldl addName ns)) := by
  induction names generalizing ns with
  | nil => rfl
  | cons n rest ih =>
    rw [List.foldl_cons, List.foldl_cons]
    exact ih (addName ns n)

/-- Concrete example source list "C" containing a third record for the same
identity. -/
def exListC : TokenList := { name := "C", tokens := [exTokBAR] }

/-- **C9** — provenance accumulation: every catalog entry's `tokenLists` is
exactly the first-seen deduplication of the names of the source lists that
contain a record with the entry's identity, in merge order: each contributing
name appears exactly once (the list is duplicate-free and its membership
coincides with the contributing names) and the list is ordered by each name's
first contribution; merging the same identity from 3 distinct sources yields
a provenance list of length 3. -/
theorem C9_provenance :
    (∀ (lists : List TokenList) (t : Token), t ∈ mergeAll lists →
      ∃ ns : List String,
        t.tokenLists = some ns
        ∧ ns = dedupKeep [] (contributorNames lists t.address.lowerAscii t.chain)
        ∧ ns.Nodup
        ∧ (∀ n, n ∈ ns ↔ n ∈ contributorNames lists t.address.lowerAscii t.chain)
        ∧ ns.Pairwise (fun x y =>
            firstIdx x (contributorNames lists t.address.lowerAscii t.chain)
              < firstIdx y (contributorNames lists t.address.lowerAscii t.chain)))
    ∧ (mergeAll [exListA, exListB, exListC]).map Token.tokenLists
        = [some ["A", "B", "C"]] := by
  refine ⟨?_, by decide⟩
  intro lists t ht
  have hself := findTok_self (identUnique_mergeAll lists) ht
  have hmain := tokenLists_mergeAll lists t.address.lowerAscii t.chain
  rw [hself] at hmain
  cases hcn : contributorNames lists t.address.lowerAscii t.chain with
  | nil =>
    rw [hcn] at hmain
    simp at hmain
  | cons n rest =>
    rw [hcn] at hmain
    rw [List.foldl_cons, show (some (bumpProv n none)) = some (some [n]) from rfl,
      foldl_bump_some] at hmain
    have hns : t.tokenLists = some (rest.foldl addName [n]) := by
      simpa using hmain
    have hfold : rest.foldl addName [n] = dedupKeep [] (n :: rest) := by
      have h1 : (n :: rest).foldl addName [] = [] ++ dedupKeep [] (n :: rest) :=
        foldl_addName_eq_dedupKeep (n :: rest) []
      rw [List.nil_append] at h1
      rw [← h1, List.foldl_cons]
      have : addName [] n = [n] := by simp [addName]
      rw [this]
    refine ⟨rest.foldl addName [n], hns, by rw [hfold], ?_, ?_, ?_⟩
    · rw [hfold]
      exact nodup_dedupKeep [] (n :: rest)
    · intro m
      rw [hfold, mem_dedupKeep]
      simp
    · rw [hfold]
      exact dedupKeep_pairwise_firstIdx (n :: rest) []

/-- Witness for C9: the catalog built from the single concrete source list
"A". -/
theorem C9_provenance_witness :
    ∃ ns : List String,
      ({ exTokFOO with tokenLists := some ["A"] } : Token).tokenLists = some ns
      ∧ ns = dedupKeep []
          (contributorNames [exListA]
            ({ exTokFOO with tokenLists := some ["A"] } : Token).address.lowerAscii
            ({ exTokFOO with tokenLists := some ["A"] } : Token).chain)
      ∧ ns.Nodup
      ∧ (∀ n, n ∈ ns ↔ n ∈ contributorNames [exListA]
            ({ exTokFOO with tokenLists := some ["A"] } : Token).address.lowerAscii
            ({ exTokFOO with tokenLists := some ["A"] } : Token).chain)
      ∧ ns.Pairwise (fun x y =>
          firstIdx x (contributorNames [exListA]
              ({ exTokFOO with tokenLists := some ["A"] } : Token).address.lowerAscii
              ({ exTokFOO with tokenLists := some ["A"] } : Token).chain)
            < firstIdx y (contributorNames [exListA]
              ({ exTokFOO with tokenLists := some ["A"] } : Token).address.lowerAscii
              ({ exTokFOO with tokenLists := some ["A"] } : Token).chain)) :=
  C9_provenance.1 [exListA] { exTokFOO with tokenLists := some ["A"] } (by decide)

/-! ## CSV row errors -/

/-- A thrown error is never recovered inside the row loop. -/
theorem foldl_parseRowStep_absorb (headers : List String) (chain : ChainType)
    (rows : List String) (e : String) :
    rows.foldl (parseRowStep headers chain) (Except.error e) = Except.error e := by
  induction rows with
  | nil => rfl
  | cons r rs ih => exact ih

/-- A non-blank row on which `parseRow` throws makes the whole row loop
throw, whatever came before it. -/
theorem foldl_parseRowStep_error (headers : List String) (chain : ChainType)
    (row : String) (hblank : ¬(row.trimWs == "") = true)
    (herr : ∃ e, parseRow headers chain row = Except.error e) :
    ∀ rows : List String, row ∈ rows →
      ∀ init : Except String (List Token),
        ∃ e, rows.foldl (parseRowStep headers chain) init = Except.error e := by
  intro rows
  induction rows with
  | nil => intro h; cases h
  | cons r rs ih =>
    intro hmem init
    rcases List.mem_cons.mp hmem with rfl | hmem'
    · obtain ⟨e, he⟩ := herr
      cases init with
      | error e0 =>
        exact ⟨e0, foldl_parseRowStep_absorb headers chain (row :: rs) e0⟩
      | ok toks =>
        have hstep : parseRowStep headers chain (Except.ok toks) row = Except.error e := by
          rw [parseRowStep]
          rw [if_neg hblank, he]
        rw [List.foldl_cons, hstep]
        exact ⟨e, foldl_parseRowStep_absorb headers chain rs e⟩
    · rw [List.foldl_cons]
      exact ih hmem' (parseRowStep headers chain init r)

/-- A data row that is too short for a required column's index makes
`parseRow` throw (the cell access yields `undefined` and `.replace` on it
throws). -/
theorem parseRow_short (headers : List String) (chain : ChainType) (row : String)
    (haddr : 0 ≤ jsIndexOf headers "token_address")
    (hname : 0 ≤ jsIndexOf headers "name")
    (hsym : 0 ≤ jsIndexOf headers "symbol")
    (hdec : 0 ≤ jsIndexOf headers "decimals")
    (hshort : (splitRowValues row).length ≤ (jsIndexOf headers "decimals").toNat) :
    ∃ e, parseRow headers chain row = Except.error e := by
  rw [parseRow]
  rw [if_pos ⟨haddr, hname, hsym, hdec⟩]
  cases h1 : jsGetCell (splitRowValues row) (jsIndexOf headers "token_address") with
  | error e => exact ⟨e, rfl⟩
  | ok v1 =>
    cases h2 : jsGetCell (splitRowValues row) (jsIndexOf headers "name") with
    | error e => exact ⟨e, rfl⟩
    | ok v2 =>
      cases h3 : jsGetCell (splitRowValues row) (jsIndexOf headers "symbol") with
      | error e => exact ⟨e, rfl⟩
      | ok v3 =>
        have h4 : jsGetCell (splitRowValues row) (jsIndexOf headers "decimals")
            = Except.error "TypeError: cannot read properties of undefined" := by
          rw [jsGetCell, List.get?_eq_none.mpr hshort]
        rw [h4]
        exact ⟨_, rfl⟩

/-- Counterexample to C3 as stated: in a CSV whose header has all required
columns, the short data row "A2,N2" is not silently skipped — the whole parse
throws on the missing `decimals` cell, the loader catches the error, and the
source contributes nothing (no populated Source List, and the good rows
"A1,..." and "A3,..." are lost with it). -/
theorem C3_counterexample :
    parseCSVToTokenList
        "token_address,name,symbol,decimals\nA1,N1,S1,6\nA2,N2\nA3,N3,S3,9"
        "f.csv" ChainType.solana
      = Except.error "TypeError: cannot read properties of undefined"
    ∧ loadTokenListFromCSVContent
        "token_address,name,symbol,decimals\nA1,N1,S1,6\nA2,N2\nA3,N3,S3,9"
        "f.csv" ChainType.solana = none := ⟨rfl, rfl⟩

/-- **C3** (amended) — when the header contains the required columns, a
non-blank data row with fewer cells than the `decimals` column's index is not
skipped: the cell access throws, the error escapes `parseCSVToTokenList`
(aborting the entire source, good rows included), and `loadTokenListFromCSV`
catches it and returns absence, so the source produces no Source List at
all.  (A row is silently skipped only when the header itself lacks a required
column, in which case every row is skipped.) -/
theorem C3_short_row_aborts_source (csvContent filename : String) (chain : ChainType)
    (row : String)
    (hmem : row ∈ (csvContent.splitChar (Char.ofNat 10)).tail)
    (hblank : ¬(row.trimWs == "") = true)
    (haddr : 0 ≤ jsIndexOf (csvHeaders csvContent) "token_address")
    (hname : 0 ≤ jsIndexOf (csvHeaders csvContent) "name")
    (hsym : 0 ≤ jsIndexOf (csvHeaders csvContent) "symbol")
    (hdec : 0 ≤ jsIndexOf (csvHeaders csvContent) "decimals")
    (hshort : (splitRowValues row).length
      ≤ (jsIndexOf (csvHeaders csvContent) "decimals").toNat) :
    (∃ e, parseCSVToTokenList csvContent filename chain = Except.error e)
    ∧ loadTokenListFromCSVContent csvContent filename chain = none := by
  have herr := parseRow_short (csvHeaders csvContent) chain row haddr hname hsym hdec hshort
  obtain ⟨e, he⟩ := foldl_parseRowStep_error (csvHeaders csvContent) chain row hblank herr
    (csvContent.splitChar (Char.ofNat 10)).tail hmem (Except.ok [])
  constructor
  · refine ⟨e, ?_⟩
    rw [parseCSVToTokenList, he]
  · rw [loadTokenListFromCSVContent, parseCSVToTokenList, he]

/-- Witness for C3 (amended), on the concrete three-row CSV with the short
middle row. -/
theorem C3_short_row_aborts_source_witness :
    (∃ e, parseCSVToTokenList
        "token_address,name,symbol,decimals\nA1,N1,S1,6\nA2,N2\nA3,N3,S3,9"
        "f.csv" ChainType.solana = Except.error e)
    ∧ loadTokenListFromCSVContent
        "token_address,name,symbol,decimals\nA1,N1,S1,6\nA2,N2\nA3,N3,S3,9"
        "f.csv" ChainType.solana = none :=
  C3_short_row_aborts_source
    "token_address,name,symbol,decimals\nA1,N1,S1,6\nA2,N2\nA3,N3,S3,9"
    "f.csv" ChainType.solana "A2,N2"
    (by decide) (by decide) (by decide) (by decide) (by decide) (by decide) (by decide)

/-- A successful cell access returns exactly the cell stored at that index. -/
theorem jsGetCell_ok {values : List String} {idx : Int} {v : String}
    (h : jsGetCell values idx = Except.ok v) : values.get? idx.toNat = some v := by
  rw [jsGetCell] at h
  cases hg : values.get? idx.toNat with
  | none =>
    rw [hg] at h
    exact absurd h (by simp)
  | some w =>
    rw [hg] at h
    injection h with h'
    rw [h']

/-- The decimals of the token a row yields is `parseInt` of that row's own
decimals cell (which exists, at the `decimals` header's index among the row's
split values), or 18 when that cell has no parsable integer. -/
theorem parseRow_decimals_cell {headers : List String} {chain : ChainType} {row : String}
    {t : Token} (h : parseRow headers chain row = Except.ok (some t)) :
    ∃ cell, (splitRowValues row).get? (jsIndexOf headers "decimals").toNat = some cell
      ∧ t.decimals = (match jsParseInt (stripQuotes cell) with
                      | none => 18
                      | some n => n) := by
  rw [parseRow] at h
  by_cases hc : jsIndexOf headers "token_address" ≥ 0 ∧ jsIndexOf headers "name" ≥ 0
      ∧ jsIndexOf headers "symbol" ≥ 0 ∧ jsIndexOf headers "decimals" ≥ 0
  · rw [if_pos hc] at h
    cases h1 : jsGetCell (splitRowValues row) (jsIndexOf headers "token_address") with
    | error e => rw [h1] at h; exact absurd h (by simp)
    | ok v1 =>
    rw [h1] at h
    cases h2 : jsGetCell (splitRowValues row) (jsIndexOf headers "name") with
    | error e => rw [h2] at h; exact absurd h (by simp)
    | ok v2 =>
    rw [h2] at h
    cases h3 : jsGetCell (splitRowValues row) (jsIndexOf headers "symbol") with
    | error e => rw [h3] at h; exact absurd h (by simp)
    | ok v3 =>
    rw [h3] at h
    cases h4 : jsGetCell (splitRowValues row) (jsIndexOf headers "decimals") with
    | error e => rw [h4] at h; exact absurd h (by simp)
    | ok v4 =>
    rw [h4] at h
    cases h5 : (if jsIndexOf headers "logo_uri" ≥ 0 then
        (jsGetCell (splitRowValues row) (jsIndexOf headers "logo_uri")).map
          (fun v => some (stripQuotes v))
      else Except.ok none) with
    | error e => rw [h5] at h; exact absurd h (by simp)
    | ok logo =>
    rw [h5] at h
    injection h with h'
    injection h' with h''
    subst h''
    exact ⟨v4, jsGetCell_ok h4, rfl⟩
  · rw [if_neg hc] at h
    exact absurd h (by simp)

/-- Every token accumulated by the row loop either was in the accumulator
already or is the parse of one of the processed rows. -/
theorem parse_tokens_from_rows (headers : List String) (chain : ChainType) :
    ∀ (rows : List String) (init toks : List Token),
      rows.foldl (parseRowStep headers chain) (Except.ok init) = Except.ok toks →
      ∀ t ∈ toks,
        t ∈ init ∨ ∃ row ∈ rows, parseRow headers chain row = Except.ok (some t) := by
  intro rows
  induction rows with
  | nil =>
    intro init toks h t ht
    injection h with h'
    subst h'
    exact Or.inl ht
  | cons r rs ih =>
    intro init toks h t ht
    rw [List.foldl_cons, parseRowStep] at h
    by_cases hb : (r.trimWs == "") = true
    · rw [if_pos hb] at h
      rcases ih init toks h t ht with h' | ⟨row, hrow, hp⟩
      · exact Or.inl h'
      · exact Or.inr ⟨row, List.mem_cons_of_mem r hrow, hp⟩
    · rw [if_neg hb] at h
      cases hr : parseRow headers chain r with
      | error e =>
        rw [hr, foldl_parseRowStep_absorb] at h
        exact absurd h (by simp)
      | ok o =>
        rw [hr] at h
        cases o with
        | none =>
          rcases ih init toks h t ht with h' | ⟨row, hrow, hp⟩
          · exact Or.inl h'
          · exact Or.inr ⟨row, List.mem_cons_of_mem r hrow, hp⟩
        | some tNew =>
          rcases ih (init ++ [tNew]) toks h t ht with h' | ⟨row, hrow, hp⟩
          · rcases List.mem_append.mp h' with h'' | h''
            · exact Or.inl h''
            · refine Or.inr ⟨r, List.mem_cons_self r rs, ?_⟩
              rw [List.mem_singleton.mp h'']
              exact hr
          · exact Or.inr ⟨row, List.mem_cons_of_mem r hrow, hp⟩

/-- Counterexample to C7 as stated: a row whose decimals cell is "-5" yields
a token with decimals -5, which is negative — the Source Loader does not
guarantee decimals ≥ 0. -/
theorem C7_counterexample :
    (parseCSVToTokenList "token_address,name,symbol,decimals\nA,N,S,-5" "f.csv"
        ChainType.bnb).toOption.map (fun tl => tl.tokens.map Token.decimals) = some [-5]
    ∧ (-5 : Int) < 0 := by decide

/-- **C7** (amended) — every Token produced by the CSV parser originates from
one of the source's data rows, and its decimals equals the `parseInt` of
that row's own decimals cell (the cell at the `decimals` header's index in
the row's split values) when that parses to an integer — which may be
negative, e.g. "-5" gives -5 — and 18 otherwise; in particular a non-numeric
cell such as "N/A" yields decimals 18.  The claimed invariant `decimals ≥ 0`
is not enforced. -/
theorem C7_decimals_parse_fallback :
    (∀ (headers : List String) (chain : ChainType) (row : String) (t : Token),
      parseRow headers chain row = Except.ok (some t) →
      ∃ cell, (splitRowValues row).get? (jsIndexOf headers "decimals").toNat = some cell
        ∧ t.decimals = (match jsParseInt (stripQuotes cell) with
                        | none => 18
                        | some n => n))
    ∧ (∀ (csvContent filename : String) (chain : ChainType) (tl : TokenList),
        parseCSVToTokenList csvContent filename chain = Except.ok tl →
        ∀ t ∈ tl.tokens, ∃ row ∈ (csvContent.splitChar (Char.ofNat 10)).tail,
          parseRow (csvHeaders csvContent) chain row = Except.ok (some t))
    ∧ jsParseInt "N/A" = none
    ∧ (parseCSVToTokenList "token_address,name,symbol,decimals\nA,N,S,N/A" "f.csv"
        ChainType.bnb).toOption.map (fun tl => tl.tokens.map Token.decimals) = some [18]
    ∧ jsParseInt "-5" = some (-5) := by
  refine ⟨?_, ?_, by decide, by decide, by decide⟩
  · intro headers chain row t h
    exact parseRow_decimals_cell h
  · intro csvContent filename chain tl h
    rw [parseCSVToTokenList] at h
    cases hf : (csvContent.splitChar (Char.ofNat 10)).tail.foldl
        (parseRowStep (csvHeaders csvContent) chain) (Except.ok []) with
    | error e =>
      rw [hf] at h
      exact absurd h (by simp)
    | ok toks =>
      rw [hf] at h
      injection h with h'
      subst h'
      intro t ht
      rcases parse_tokens_from_rows (csvHeaders csvContent) chain _ [] toks hf t ht with
        h' | hrow
      · cases h'
      · exact hrow

/-- Witness for C7 (amended): the token parsed from the row "A,N,S,N/A" has
its decimals tied to that row's own decimals cell "N/A". -/
theorem C7_decimals_parse_fallback_witness :
    ∃ cell,
      (splitRowValues "A,N,S,N/A").get?
          (jsIndexOf (csvHeaders "token_address,name,symbol,decimals\nA,N,S,N/A")
            "decimals").toNat = some cell
      ∧ ({ address := "A", chain := ChainType.bnb, decimals := 18, logoURI := none,
           name := "N", symbol := "S", tokenLists := none } : Token).decimals
          = (match jsParseInt (stripQuotes cell) with
             | none => 18
             | some n => n) :=
  C7_decimals_parse_fallback.1
    (csvHeaders "token_address,name,symbol,decimals\nA,N,S,N/A") ChainType.bnb "A,N,S,N/A"
    { address := "A", chain := ChainType.bnb, decimals := 18, logoURI := none,
      name := "N", symbol := "S", tokenLists := none }
    rfl

/-- Concrete token whose address — but neither symbol nor name — equals the
query "0xaa". -/
def exAddrTok : Token :=
  { address := "0xaa", chain := ChainType.bnb, decimals := 18, logoURI := none,
    name := "Name", symbol := "SYM", tokenLists := some ["x"] }

/-- Counterexample to C4 as stated: under the default full-match mode,
`general-search` for "0xaa" returns a token whose symbol and name do not
equal the query (its address does), so the full-match result set of
`general-search` is not the symbol/name-equality filter the claim
describes. -/
theorem C4_counterexample :
    generalSearchToolTokens [exAddrTok] "0xaa" none none none = [exAddrTok]
    ∧ ¬(exAddrTok.symbol.lowerAscii = ("0xaa" : String).lowerAscii
        ∨ exAddrTok.name.lowerAscii = ("0xaa" : String).lowerAscii) := by decide

/-- **C4** (amended) — match-type filtering: for `search-tokens`, full-match
(the default) keeps exactly the substring-matched candidates whose symbol or
name case-insensitively equals the query, and partial-match passes the
substring-matched set through unchanged; for `general-search`, the full-match
filter additionally keeps tokens whose address equals the query
case-insensitively.  In both tools the full-match candidate set is a subset
of the partial-match candidate set for the same query. -/
theorem C4_match_filters :
    (∀ (c : List Token) (q : String) (ch : Option ChainType) (t : Token),
      t ∈ searchToolCandidates c q ch SearchType.fullMatch
        ↔ t ∈ searchTokens c q ch
          ∧ (t.symbol.lowerAscii = q.lowerAscii ∨ t.name.lowerAscii = q.lowerAscii))
    ∧ (∀ (c : List Token) (q : String) (ch : Option ChainType),
        searchToolCandidates c q ch SearchType.partialMatch = searchTokens c q ch)
    ∧ (∀ (c : List Token) (q : String) (ch : Option ChainType) (t : Token),
        t ∈ generalToolCandidates c q ch SearchType.fullMatch
          ↔ t ∈ generalCandidates c q ch
            ∧ (t.address.lowerAscii = q.lowerAscii ∨ t.symbol.lowerAscii = q.lowerAscii
               ∨ t.name.lowerAscii = q.lowerAscii))
    ∧ (∀ (c : List Token) (q : String) (ch : Option ChainType),
        generalToolCandidates c q ch SearchType.partialMatch = generalCandidates c q ch)
    ∧ (∀ (c : List Token) (q : String) (ch : Option ChainType) (t : Token),
        t ∈ searchToolCandidates c q ch SearchType.fullMatch
          → t ∈ searchToolCandidates c q ch SearchType.partialMatch)
    ∧ (∀ (c : List Token) (q : String) (ch : Option ChainType) (t : Token),
        t ∈ generalToolCandidates c q ch SearchType.fullMatch
          → t ∈ generalToolCandidates c q ch SearchType.partialMatch) := by
  refine ⟨?_, fun _ _ _ => rfl, ?_, fun _ _ _ => rfl, ?_, ?_⟩
  · intro c q ch t
    simp [searchToolCandidates, searchMatchFilter, List.mem_filter]
  · intro c q ch t
    simp [generalToolCandidates, generalMatchFilter, List.mem_filter, or_assoc]
  · intro c q ch t ht
    exact List.mem_of_mem_filter ht
  · intro c q ch t ht
    exact List.mem_of_mem_filter ht

/-- Witness for C4 (amended): the exact-symbol match "FOO" is in the
full-match candidates, hence in the partial-match candidates. -/
theorem C4_match_filters_witness :
    exTokFOO ∈ searchToolCandidates [exTokFOO] "FOO" none SearchType.partialMatch :=
  C4_match_filters.2.2.2.2.1 [exTokFOO] "FOO" none exTokFOO (by decide)

/-- Two-entry catalog in which both tokens match the query "tok". -/
def exTwoCatalog : List Token := [exProvTok "a" ["1"], exProvTok "b" ["1", "2"]]

/-- Counterexample to C10 as stated: with two matches, `limit = -1` returns 1
result, not an empty list — JS `slice(0, -1)` drops the last entry rather
than returning nothing. -/
theorem C10_counterexample :
    (searchTokensToolTokens exTwoCatalog "tok" none none (some (-1))).length = 1 := by decide

/-- **C10** (amended) — at the tool boundary a supplied limit of 0 is treated
as absent (the `limit || default` expression applies the default 1000, or 100
in the minimal variant), so limit 0 returns up to the default number of
results rather than zero; a negative limit `n` slices to all but the last
`|n|` entries (`slice(0, n)` with a negative end), which is empty only when
the match count is at most `|n|`. -/
theorem C10_limit_defaults :
    (∀ (c : List Token) (q : String) (ch : Option ChainType) (st : Option SearchType),
      searchTokensToolTokens c q ch st (some 0) = searchTokensToolTokens c q ch st none)
    ∧ (∀ (c : List Token) (q : String) (ch : Option ChainType) (st : Option SearchType),
      generalSearchToolTokens c q ch st (some 0) = generalSearchToolTokens c q ch st none)
    ∧ (∀ (c : List Token) (ch : ChainType),
      getTokensByChainToolTokens c ch (some 0) = getTokensByChainToolTokens c ch none)
    ∧ (∀ (c : List Token) (q : String) (st : Option SearchType),
      searchTokensToolMinTokens c q st (some 0) = searchTokensToolMinTokens c q st none)
    ∧ (∀ (l : List Token) (n : Int), n < 0 →
        jsSliceEnd n l = l.take ((l.length : Int) + n).toNat
        ∧ (jsSliceEnd n l).length = ((l.length : Int) + n).toNat)
    ∧ (searchTokensToolTokens exTwoCatalog "tok" none none (some (-1))).length = 1
    ∧ searchTokensToolTokens exTwoCatalog "tok" none none (some 0)
        = searchTokensToolTokens exTwoCatalog "tok" none none none := by
  refine ⟨fun _ _ _ _ => rfl, fun _ _ _ _ => rfl, fun _ _ => rfl, fun _ _ _ => rfl, ?_,
    by decide, rfl⟩
  intro l n hn
  constructor
  · rw [jsSliceEnd, if_pos hn]
  · rw [jsSliceEnd, if_pos hn, List.length_take]
    omega

/-- Witness for C10 (amended): slicing the two-entry catalog with limit -1. -/
theorem C10_limit_defaults_witness :
    jsSliceEnd (-1) exTwoCatalog = exTwoCatalog.take ((exTwoCatalog.length : Int) + (-1)).toNat
    ∧ (jsSliceEnd (-1) exTwoCatalog).length = ((exTwoCatalog.length : Int) + (-1)).toNat :=
  C10_limit_defaults.2.2.2.2.1 exTwoCatalog (-1) (by decide)

end TokenSearch
